import Mathlib

/-!
# Verification of the bill-splitter core (`main.go`)

A shallow embedding of the Go bill-splitter's core functions and proofs of
the specification's claims about them.  Go `float64` arithmetic is modelled
by exact rational arithmetic (`ℚ`); Go maps are modelled by association
structures that record insertion order, which is one admissible iteration
order for a Go map.  Network and clock effects are passed in explicitly as
arguments (the fetch outcome and the current time), so the stateful
functions become pure state transformers.
-/

namespace BillSplitter

/-- `Person` from `main.go`: an integer id and a display name. -/
structure Person where
  id : Int
  name : String
deriving DecidableEq, Repr

/-- `Bill` from `main.go`.  `amount`/`amountBase` are Go `float64`, modelled
as rationals; the JSON zero values are `0`/`""`. -/
structure Bill where
  id : Int
  title : String
  amount : ℚ
  category : String
  currency : String
  amountBase : ℚ
  paidBy : Int
  participants : List Int
deriving DecidableEq, Repr

/-- `Settlement` from `main.go`: a directed transfer between two names. -/
structure Settlement where
  From : String
  To : String
  Amount : ℚ
deriving DecidableEq, Repr

/-! ## The balance map

`calculate` keeps `balance` in a Go `map[int]float64`.  We model it as a
total valuation plus the list of keys in insertion order (first insertion
wins for the position; Go iteration order is arbitrary, and insertion order
is one admissible order).  Reading an absent key yields the zero value `0`,
exactly as in Go. -/

/-- The balance map of `calculate`: insertion-ordered keys plus a total
valuation that is `0` off the keys. -/
structure BalMap where
  keys : List Int
  val : Int → ℚ

/-- `m[k] += d` on a Go map: the valuation changes at `k` and the key is
appended if it was absent. -/
def BalMap.add (m : BalMap) (k : Int) (d : ℚ) : BalMap :=
  { keys := if k ∈ m.keys then m.keys else m.keys ++ [k]
    val := fun i => if i = k then m.val k + d else m.val i }

/-- The initialization loop of `calculate`: `balance[person.ID] = 0` for
each person (a no-op on the valuation, but it registers the key). -/
def initBal (people : List Person) : BalMap :=
  people.foldl (fun m p => m.add p.id 0) ⟨[], fun _ => 0⟩

/-- One iteration of the bill loop in `calculate`: a bill with no
participants is skipped; otherwise the payer is credited the amount
(`AmountBase`, falling back to `Amount` when it is zero) and every
participant is debited the equal share. -/
def applyBill (m : BalMap) (b : Bill) : BalMap :=
  if b.participants.isEmpty then m
  else
    let amount := if b.amountBase = 0 then b.amount else b.amountBase
    let perPerson := amount / (b.participants.length : ℚ)
    let m1 := m.add b.paidBy amount
    b.participants.foldl (fun acc pid => acc.add pid (-perPerson)) m1

/-- The whole bill loop of `calculate`. -/
def balancesAfter (people : List Person) (bills : List Bill) : BalMap :=
  bills.foldl applyBill (initBal people)

/-- The `nameMap` built by `calculate`: later people overwrite earlier ones
with the same id, and an unknown id reads as the zero value `""`. -/
def nameMapOf (people : List Person) : Int → String :=
  people.foldl (fun f p => fun i => if i = p.id then p.name else f i) (fun _ => "")

/-- The creditor partition of `calculate`: keys whose balance exceeds
`0.01`, paired with that balance, in map-iteration (here insertion)
order. -/
def creditorsOf (m : BalMap) : List (Int × ℚ) :=
  (m.keys.filter (fun k => decide (1/100 < m.val k))).map (fun k => (k, m.val k))

/-- The debtor partition of `calculate`: keys whose balance is below
`-0.01`, paired with the negated balance. -/
def debtorsOf (m : BalMap) : List (Int × ℚ) :=
  (m.keys.filter (fun k => decide (m.val k < -(1/100)))).map (fun k => (k, -(m.val k)))

/-- The greedy matching loop of `calculate`, instrumented to also return
the unconsumed creditor and debtor suffixes (the loop ends when either
list runs out).  Each step transfers `min` of the two head amounts; because
that sends one head to exactly `0 < 0.01`, the Go advance conditions
(`remaining < 0.01`) reduce to the two branches below: when the debtor's
amount is strictly smaller the debtor always advances and the creditor
advances iff its remainder dropped below `0.01`, and otherwise the creditor
always advances and the debtor advances iff its remainder dropped below
`0.01`. -/
def greedyAux (nm : Int → String) : List (Int × ℚ) → List (Int × ℚ) →
    List Settlement × List (Int × ℚ) × List (Int × ℚ)
  | [], ds => ([], [], ds)
  | c :: cs, [] => ([], c :: cs, [])
  | (cid, camt) :: cs, (did, damt) :: ds =>
    if damt < camt then
      let s : Settlement := ⟨nm did, nm cid, damt⟩
      let camt' := camt - damt
      if camt' < 1/100 then
        let r := greedyAux nm cs ds
        (s :: r.1, r.2)
      else
        let r := greedyAux nm ((cid, camt') :: cs) ds
        (s :: r.1, r.2)
    else
      let s : Settlement := ⟨nm did, nm cid, camt⟩
      let damt' := damt - camt
      if damt' < 1/100 then
        let r := greedyAux nm cs ds
        (s :: r.1, r.2)
      else
        let r := greedyAux nm cs ((did, damt') :: ds)
        (s :: r.1, r.2)
termination_by cs ds => cs.length + ds.length
decreasing_by all_goals simp_arith

/-- The settlement plan emitted by the greedy loop. -/
def greedyLoop (nm : Int → String) (cs ds : List (Int × ℚ)) : List Settlement :=
  (greedyAux nm cs ds).1

/-- Sum of the amounts a given name receives (`To` field) in a plan. -/
def receivedBy (ss : List Settlement) (name : String) : ℚ :=
  ((ss.filter (fun s => s.To = name)).map Settlement.Amount).sum

/-- Sum of the amounts a given name pays (`From` field) in a plan. -/
def paidOutBy (ss : List Settlement) (name : String) : ℚ :=
  ((ss.filter (fun s => s.From = name)).map Settlement.Amount).sum

/-- `calculate` from `main.go`: build balances, partition into creditors
and debtors, and run the greedy matching loop. -/
def calculate (people : List Person) (bills : List Bill) : List Settlement :=
  let m := balancesAfter people bills
  greedyLoop (nameMapOf people) (creditorsOf m) (debtorsOf m)

/-! ## Currency conversion (`convertBillsToBase`)

The Go function first obtains a rate table through `getRates` (modelled
separately below, since it touches the clock, the cache and the network)
and then runs a pure conversion loop over the bills.  We embed the loop
with the rate table as an argument. -/

/-- A Go map write `m[k] = v` on an association-list model of the map:
replace the binding if the key is present, append it otherwise. -/
def setAssoc {α : Type} : List (String × α) → String → α → List (String × α)
  | [], k, v => [(k, v)]
  | (k₁, v₁) :: rest, k, v =>
    if k₁ = k then (k, v) :: rest else (k₁, v₁) :: setAssoc rest k v

/-- Go `strings.ToLower`, modelled character-wise (the inputs here are
ASCII currency codes). -/
def lowerStr (s : String) : String := ⟨s.data.map Char.toLower⟩

/-- Go `strings.ToUpper`, modelled character-wise. -/
def upperStr (s : String) : String := ⟨s.data.map Char.toUpper⟩

/-- Go `strings.TrimSpace`, modelled as dropping leading and trailing
whitespace characters. -/
def trimStr (s : String) : String :=
  ⟨((s.data.dropWhile Char.isWhitespace).reverse.dropWhile Char.isWhitespace).reverse⟩

/-- `rateEntry` from `main.go`: the rate table, its date string, and the
fetch timestamp (a point on an abstract rational time line). -/
structure rateEntry where
  rates : List (String × ℚ)
  date : String
  fetchedAt : ℚ
deriving DecidableEq, Repr

/-- Currency-code resolution in the bill loop of `convertBillsToBase`:
trim, lower-case, and treat the empty result as the (lower-cased) base. -/
def resolveCurrency (baseLower : String) (cur : String) : String :=
  let c := lowerStr (trimStr cur)
  if c = "" then baseLower else c

/-- The error message `convertBillsToBase` produces for a missing or zero
rate, naming the offending code and the base, both upper-cased. -/
def missingRateMsg (base cur : String) : String :=
  "缺少幣別 " ++ upperStr cur ++ " 的匯率，無法換算為 " ++ upperStr base

/-- Whether a bill makes `convertBillsToBase` fail against a given rate
table: its resolved code differs from the base and is absent from the
table or mapped to exactly zero. -/
def billOffends (baseLower : String) (rates : List (String × ℚ)) (b : Bill) : Prop :=
  resolveCurrency baseLower b.currency ≠ baseLower ∧
    (rates.lookup (resolveCurrency baseLower b.currency) = none ∨
      rates.lookup (resolveCurrency baseLower b.currency) = some 0)

instance (baseLower : String) (rates : List (String × ℚ)) (b : Bill) :
    Decidable (billOffends baseLower rates b) := by
  unfold billOffends; infer_instance

/-- The body of one iteration of the bill loop in `convertBillsToBase`:
the `amountBase` computed for one bill, or the abort error.  `base` is the
original argument (used in the error message), `baseLower` its
lower-casing computed once before the loop. -/
def convertBill (base baseLower : String) (rates : List (String × ℚ))
    (bill : Bill) : Except String ℚ :=
  let cur := resolveCurrency baseLower bill.currency
  if cur = baseLower then .ok bill.amount
  else
    match rates.lookup cur with
    | none => .error (missingRateMsg base cur)
    | some rate =>
      if rate = 0 then .error (missingRateMsg base cur)
      else .ok (bill.amount / rate)

/-- The bill loop of `convertBillsToBase`: convert each bill in order,
aborting on the first missing/zero rate. -/
def convertLoop (base baseLower : String) (rates : List (String × ℚ)) :
    List Bill → Except String (List Bill)
  | [] => .ok []
  | bill :: rest =>
    match convertBill base baseLower rates bill with
    | .error e => .error e
    | .ok ab =>
      match convertLoop base baseLower rates rest with
      | .error e => .error e
      | .ok tail => .ok ({ bill with amountBase := ab } :: tail)

/-- `convertBillsToBase` from `main.go`, given the rate entry that
`getRates` produced: returns the converted bills (or `none`, Go's `nil`,
on failure), the rate date, and the error (if any), mirroring the Go
triple `([]Bill, string, error)`. -/
def convertBillsToBase (base : String) (entry : rateEntry) (bills : List Bill) :
    Option (List Bill) × String × Option String :=
  match convertLoop base (lowerStr base) entry.rates bills with
  | .ok converted => (some converted, entry.date, none)
  | .error e => (none, entry.date, some e)

/-! ## Rate acquisition (`getRates`)

`getRates` reads the process-wide cache and the clock and may call the
network fetch.  We embed it as a pure function of the cache contents, the
current time, and the outcome the network fetch would have produced,
returning the Go result together with the cache left behind. -/

/-- The 30-minute cache TTL (`rateCacheTTL` in `main.go`), on the same
abstract time line as `rateEntry.fetchedAt` (in minutes). -/
def rateCacheTTL : ℚ := 30

/-- `getRates` from `main.go` as a pure state transformer.  `fetchResult`
is the outcome `fetchRates base` would return at this moment.  The control
flow mirrors the Go body: a fresh cached entry returns early; otherwise a
fetch is attempted, a fetch error falls back to any cached entry, and a
successful fetch is stored back into the cache. -/
def getRates (cache : List (String × rateEntry)) (now : ℚ)
    (fetchResult : Except String rateEntry) (base : String) :
    Except String rateEntry × List (String × rateEntry) :=
  let fresh : Option rateEntry :=
    match cache.lookup base with
    | some entry => if now - entry.fetchedAt < rateCacheTTL then some entry else none
    | none => none
  match fresh with
  | some entry => (.ok entry, cache)
  | none =>
    match fetchResult with
    | .error e =>
      match cache.lookup base with
      | some cached => (.ok cached, cache)
      | none => (.error e, cache)
    | .ok entry => (.ok entry, setAssoc cache base entry)

/-! ## Rate-response parsing (`parseRateResponse`)

The Go function decodes raw JSON bytes.  We embed the JSON value
structurally (textual lexing is outside the claims) and mirror the
decoding steps: a top-level object, an optional `"date"` string, the
lower-cased base key holding an object of numeric rates, and the forced
`rates[base] = 1`. -/

/-- A structural JSON value. -/
inductive JsonVal where
  | null : JsonVal
  | bool : Bool → JsonVal
  | num : ℚ → JsonVal
  | str : String → JsonVal
  | arr : List JsonVal → JsonVal
  | obj : List (String × JsonVal) → JsonVal
deriving Repr

/-- Lookup in a decoded Go JSON object: on duplicate keys the last value
wins, as with `encoding/json` into a map. -/
def goLookup (fields : List (String × JsonVal)) (k : String) : Option JsonVal :=
  ((fields.filter (fun p => p.1 = k)).getLast?).map (fun p => p.2)

/-- Decoding a JSON object into a Go `map[string]float64`: every value
must be a number; later duplicate keys overwrite earlier ones. -/
def decodeRatesMap : List (String × JsonVal) → List (String × ℚ) →
    Option (List (String × ℚ))
  | [], acc => some acc
  | (k, .num q) :: rest, acc => decodeRatesMap rest (setAssoc acc k q)
  | _ :: _, _ => none

/-- `parseRateResponse` from `main.go` over a structural JSON value:
extract the optional `date` string, require the lower-cased base key to
hold an object of numbers, and force the base's own rate to `1`.  The
`fetchedAt` field is the Go zero value; `fetchRatesOnce` stamps it
afterwards. -/
def parseRateResponse (base : String) (data : JsonVal) : Except String rateEntry :=
  match data with
  | .obj raw =>
    let dateE : Except String String :=
      match goLookup raw "date" with
      | none => .ok ""
      | some (.str s) => .ok s
      | some _ => .error "json: cannot unmarshal value into Go value of type string"
    match dateE with
    | .error e => .error e
    | .ok date =>
      let baseKey := lowerStr base
      match goLookup raw baseKey with
      | none => .error "找不到基準幣別的匯率資料"
      | some rateRaw =>
        match rateRaw with
        | .obj rfields =>
          match decodeRatesMap rfields [] with
          | none => .error "json: cannot unmarshal value into Go value of type map"
          | some rates => .ok ⟨setAssoc rates baseKey 1, date, 0⟩
        | _ => .error "json: cannot unmarshal value into Go value of type map"
  | _ => .error "json: cannot unmarshal value into Go value of type map"

/-! ## Balance-map well-formedness and mass conservation -/

/-- The total of a balance map: the sum of the balances of all registered
ids. -/
def BalMap.total (m : BalMap) : ℚ := (m.keys.map m.val).sum

/-- Well-formedness of a balance map: no duplicate keys, and the
valuation is the Go zero value off the keys. -/
def BalMap.WF (m : BalMap) : Prop :=
  m.keys.Nodup ∧ ∀ i, i ∉ m.keys → m.val i = 0

theorem sum_map_ite_update (l : List Int) (hnd : l.Nodup) (f : Int → ℚ)
    (k : Int) (d : ℚ) (hk : k ∈ l) :
    (l.map (fun i => if i = k then f k + d else f i)).sum = (l.map f).sum + d := by
  induction l with
  | nil => cases hk
  | cons a t ih =>
    rcases List.nodup_cons.mp hnd with ⟨ha, hndt⟩
    by_cases hak : a = k
    · subst hak
      have ht : t.map (fun i => if i = a then f a + d else f i) = t.map f := by
        apply List.map_congr_left
        intro i hi
        have hia : i ≠ a := fun h => ha (h ▸ hi)
        simp [hia]
      simp [ht]
      ring
    · have hkt : k ∈ t := by
        rcases List.mem_cons.mp hk with h | h
        · exact absurd h.symm hak
        · exact h
      simp [hak, ih hndt hkt]
      ring

theorem BalMap.add_wf (m : BalMap) (k : Int) (d : ℚ) (hwf : m.WF) :
    (m.add k d).WF := by
  rcases hwf with ⟨hnd, hzero⟩
  constructor
  · by_cases hk : k ∈ m.keys
    · simpa [BalMap.add, hk] using hnd
    · simp [BalMap.add, hk, List.nodup_append, hnd, List.disjoint_singleton]
  · intro i hi
    by_cases hk : k ∈ m.keys
    · simp only [BalMap.add, hk, if_pos] at hi ⊢
      have hik : i ≠ k := fun h => hi (h ▸ hk)
      simp [hik, hzero i hi]
    · simp only [BalMap.add, hk, if_neg, not_false_iff] at hi ⊢
      rw [List.mem_append] at hi
      push_neg at hi
      have hik : i ≠ k := by
        intro h
        exact hi.2 (by simp [h])
      simp [hik, hzero i hi.1]

theorem BalMap.add_total (m : BalMap) (k : Int) (d : ℚ) (hwf : m.WF) :
    (m.add k d).total = m.total + d := by
  rcases hwf with ⟨hnd, hzero⟩
  by_cases hk : k ∈ m.keys
  · simp only [BalMap.total, BalMap.add, hk, if_pos]
    exact sum_map_ite_update m.keys hnd m.val k d hk
  · simp only [BalMap.total, BalMap.add, hk, if_neg, not_false_iff]
    have ht : m.keys.map (fun i => if i = k then m.val k + d else m.val i)
        = m.keys.map m.val := by
      apply List.map_congr_left
      intro i hi
      have hik : i ≠ k := fun h => hk (h ▸ hi)
      simp [hik]
    rw [List.map_append, List.sum_append, ht]
    simp [hzero k hk]

theorem initBal_wf (people : List Person) : (initBal people).WF ∧ (initBal people).total = 0 := by
  unfold initBal
  induction people using List.reverseRecOn with
  | nil =>
    refine ⟨⟨List.nodup_nil, fun i _ => rfl⟩, ?_⟩
    simp [BalMap.total]
  | append_singleton t p ih =>
    rw [List.foldl_append, List.foldl_cons, List.foldl_nil]
    rcases ih with ⟨hwf, htot⟩
    refine ⟨BalMap.add_wf _ _ _ hwf, ?_⟩
    rw [BalMap.add_total _ _ _ hwf, htot]
    ring

theorem foldl_add_const_wf (ps : List Int) (d : ℚ) (m : BalMap) (hwf : m.WF) :
    (ps.foldl (fun acc pid => acc.add pid d) m).WF ∧
    (ps.foldl (fun acc pid => acc.add pid d) m).total = m.total + ps.length * d := by
  induction ps generalizing m with
  | nil => simpa using hwf
  | cons p t ih =>
    rw [List.foldl_cons]
    rcases ih (m.add p d) (BalMap.add_wf _ _ _ hwf) with ⟨hwf', htot'⟩
    refine ⟨hwf', ?_⟩
    rw [htot', BalMap.add_total _ _ _ hwf]
    simp only [List.length_cons]
    push_cast
    ring

theorem applyBill_wf (m : BalMap) (b : Bill) (hwf : m.WF) :
    (applyBill m b).WF ∧ (applyBill m b).total = m.total := by
  unfold applyBill
  by_cases hp : b.participants.isEmpty
  · simpa [hp] using hwf
  · simp only [hp, if_neg, Bool.not_eq_true]
    set amt : ℚ := if b.amountBase = 0 then b.amount else b.amountBase with hamt
    have hwf1 := BalMap.add_wf m b.paidBy amt hwf
    rcases foldl_add_const_wf b.participants (-(amt / (b.participants.length : ℚ)))
        _ hwf1 with ⟨hwf2, htot2⟩
    refine ⟨hwf2, ?_⟩
    rw [htot2, BalMap.add_total _ _ _ hwf]
    have hne : b.participants ≠ [] := fun h => hp (by simp [h])
    have hlen : (b.participants.length : ℚ) ≠ 0 :=
      Nat.cast_ne_zero.mpr (List.length_pos.mpr hne).ne'
    field_simp
    ring

/-- C4 helper: the balance map after the bill loop is well-formed and its
balances sum to exactly zero. -/
theorem balancesAfter_wf (people : List Person) (bills : List Bill) :
    (balancesAfter people bills).WF ∧ (balancesAfter people bills).total = 0 := by
  unfold balancesAfter
  induction bills using List.reverseRecOn with
  | nil => exact initBal_wf people
  | append_singleton t b ih =>
    rw [List.foldl_append, List.foldl_cons, List.foldl_nil]
    rcases ih with ⟨hwf, htot⟩
    rcases applyBill_wf _ b hwf with ⟨hwf', htot'⟩
    exact ⟨hwf', by rw [htot', htot]⟩

/-- C4: after `calculate` processes all bills, the balances of all
registered ids (the people plus every payer or participant id the bills
introduce) sum to exactly zero in exact rational arithmetic, before any
epsilon thresholding. -/
theorem calculate_balances_sum_zero (people : List Person) (bills : List Bill) :
    (balancesAfter people bills).total = 0 :=
  (balancesAfter_wf people bills).2

/-- C2: a bill with an empty participant list changes no balance at all
(the payer included) and has no effect on the settlement plan. -/
theorem calculate_skips_empty_participant_bill (people : List Person)
    (pre post : List Bill) (b : Bill) (hb : b.participants = []) :
    balancesAfter people (pre ++ b :: post) = balancesAfter people (pre ++ post) ∧
    calculate people (pre ++ b :: post) = calculate people (pre ++ post) := by
  have h1 : balancesAfter people (pre ++ b :: post) = balancesAfter people (pre ++ post) := by
    unfold balancesAfter
    rw [List.foldl_append, List.foldl_append, List.foldl_cons]
    have : applyBill (pre.foldl applyBill (initBal people)) b
        = pre.foldl applyBill (initBal people) := by
      simp [applyBill, hb]
    rw [this]
  exact ⟨h1, by unfold calculate; rw [h1]⟩

/-- Witness for C2 at a concrete input: a participant-less bill between
two people changes nothing. -/
theorem calculate_skips_empty_participant_bill_witness :
    calculate [⟨1, "A"⟩, ⟨2, "B"⟩] ([] ++ (⟨1, "x", 50, "", "", 0, 1, []⟩ : Bill) :: []) =
      calculate [⟨1, "A"⟩, ⟨2, "B"⟩] ([] ++ []) :=
  (calculate_skips_empty_participant_bill [⟨1, "A"⟩, ⟨2, "B"⟩] [] []
    ⟨1, "x", 50, "", "", 0, 1, []⟩ rfl).2

/-! ## Conversion-loop lemmas (claims C3, C5, C10) -/

theorem convertBillsToBase_ok_iff (base : String) (entry : rateEntry)
    (bills out : List Bill) :
    (convertBillsToBase base entry bills).1 = some out ↔
      convertLoop base (lowerStr base) entry.rates bills = .ok out := by
  unfold convertBillsToBase
  cases h : convertLoop base (lowerStr base) entry.rates bills <;> simp [h]

theorem convertBill_ok_value (base baseLower : String)
    (rates : List (String × ℚ)) (bill : Bill) (ab : ℚ)
    (hab : convertBill base baseLower rates bill = .ok ab) :
    (resolveCurrency baseLower bill.currency = baseLower ∧ ab = bill.amount) ∨
    (resolveCurrency baseLower bill.currency ≠ baseLower ∧
      ∃ rate, rates.lookup (resolveCurrency baseLower bill.currency) = some rate ∧
        rate ≠ 0 ∧ ab = bill.amount / rate) := by
  simp only [convertBill] at hab
  split at hab
  · rename_i hcur
    cases hab
    exact Or.inl ⟨hcur, rfl⟩
  · rename_i hcur
    split at hab
    · cases hab
    · rename_i rate hlkv
      split at hab
      · cases hab
      · rename_i hz
        cases hab
        exact Or.inr ⟨hcur, rate, hlkv, hz, rfl⟩

theorem convertBill_offends (base baseLower : String)
    (rates : List (String × ℚ)) (bill : Bill)
    (hb : billOffends baseLower rates bill) :
    convertBill base baseLower rates bill =
      .error (missingRateMsg base (resolveCurrency baseLower bill.currency)) := by
  rcases hb with ⟨hcur, hrate⟩
  simp only [convertBill]
  rcases hrate with hnone | hzero
  · simp [hcur, hnone]
  · simp [hcur, hzero]

theorem convertBill_not_offends (base baseLower : String)
    (rates : List (String × ℚ)) (bill : Bill)
    (hb : ¬ billOffends baseLower rates bill) :
    ∃ ab, convertBill base baseLower rates bill = .ok ab := by
  unfold billOffends at hb
  push_neg at hb
  simp only [convertBill]
  split
  · exact ⟨bill.amount, rfl⟩
  · rename_i hcur
    split
    · rename_i hnone
      exact absurd hnone (hb hcur).1
    · rename_i rate hlkv
      have hrz : rate ≠ 0 := fun h => (hb hcur).2 (h ▸ hlkv)
      rw [if_neg hrz]
      exact ⟨bill.amount / rate, rfl⟩

/-- C10: a successful conversion returns a list of the same length and
order in which every field except `amountBase` is copied unchanged from
the corresponding input bill. -/
theorem convertBillsToBase_frame (base : String) (entry : rateEntry)
    (bills out : List Bill)
    (hok : (convertBillsToBase base entry bills).1 = some out) :
    out.length = bills.length ∧
    List.Forall₂ (fun bin bout =>
      bout.id = bin.id ∧ bout.title = bin.title ∧ bout.amount = bin.amount ∧
      bout.category = bin.category ∧ bout.currency = bin.currency ∧
      bout.paidBy = bin.paidBy ∧ bout.participants = bin.participants) bills out := by
  rw [convertBillsToBase_ok_iff] at hok
  suffices h : List.Forall₂ (fun bin bout =>
      bout.id = bin.id ∧ bout.title = bin.title ∧ bout.amount = bin.amount ∧
      bout.category = bin.category ∧ bout.currency = bin.currency ∧
      bout.paidBy = bin.paidBy ∧ bout.participants = bin.participants) bills out by
    exact ⟨h.length_eq.symm, h⟩
  induction bills generalizing out with
  | nil =>
    simp only [convertLoop] at hok
    cases hok
    exact List.Forall₂.nil
  | cons b rest ih =>
    simp only [convertLoop] at hok
    cases hab : convertBill base (lowerStr base) entry.rates b with
    | error e => rw [hab] at hok; cases hok
    | ok ab =>
      rw [hab] at hok
      cases htail : convertLoop base (lowerStr base) entry.rates rest with
      | error e => rw [htail] at hok; cases hok
      | ok tail =>
        rw [htail] at hok
        cases hok
        exact List.Forall₂.cons (by simp) (ih tail htail)

/-- Witness for C10: converting one 10 USD bill under base `twd` with
rate `usd ↦ 0.1` keeps every field but `amountBase`. -/
theorem convertBillsToBase_frame_witness :
    ([(⟨1, "hotel", 10, "food", "USD", 100, 2, [1, 2]⟩ : Bill)] : List Bill).length =
      ([(⟨1, "hotel", 10, "food", "USD", 0, 2, [1, 2]⟩ : Bill)] : List Bill).length ∧
    List.Forall₂ (fun bin bout =>
      bout.id = bin.id ∧ bout.title = bin.title ∧ bout.amount = bin.amount ∧
      bout.category = bin.category ∧ bout.currency = bin.currency ∧
      bout.paidBy = bin.paidBy ∧ bout.participants = bin.participants)
      [(⟨1, "hotel", 10, "food", "USD", 0, 2, [1, 2]⟩ : Bill)]
      [(⟨1, "hotel", 10, "food", "USD", 100, 2, [1, 2]⟩ : Bill)] :=
  convertBillsToBase_frame "twd" ⟨[("usd", 1/10)], "", 0⟩
    [⟨1, "hotel", 10, "food", "USD", 0, 2, [1, 2]⟩]
    [⟨1, "hotel", 10, "food", "USD", 100, 2, [1, 2]⟩]
    (by
      have h0 : lowerStr "twd" = "twd" := by decide
      have h1 : resolveCurrency "twd" "USD" = "usd" := by decide
      have h2 : ¬("usd" = "twd") := by decide
      norm_num [convertBillsToBase, convertLoop, convertBill, h0, h1, h2, List.lookup])

/-- C3: on success every output bill's `amountBase` is the input amount
when the resolved currency (trimmed, lower-cased, empty meaning the base)
equals the base, and the input amount divided by the table's rate
otherwise; in particular a 10 USD bill under base `twd` with rate table
`usd ↦ 0.1` converts to exactly `100`. -/
theorem convertBillsToBase_values (base : String) (entry : rateEntry)
    (bills out : List Bill)
    (hok : (convertBillsToBase base entry bills).1 = some out) :
    List.Forall₂ (fun bin bout =>
      (resolveCurrency (lowerStr base) bin.currency = lowerStr base ∧
        bout.amountBase = bin.amount) ∨
      (resolveCurrency (lowerStr base) bin.currency ≠ lowerStr base ∧
        ∃ rate, entry.rates.lookup (resolveCurrency (lowerStr base) bin.currency) = some rate ∧
          rate ≠ 0 ∧ bout.amountBase = bin.amount / rate)) bills out ∧
    (convertBillsToBase "twd" ⟨[("usd", 1/10)], "", 0⟩
        [⟨1, "flight", 10, "", "USD", 0, 1, [1]⟩]).1 =
      some [⟨1, "flight", 10, "", "USD", 100, 1, [1]⟩] := by
  refine ⟨?_, by
    have h0 : lowerStr "twd" = "twd" := by decide
    have h1 : resolveCurrency "twd" "USD" = "usd" := by decide
    have h2 : ¬("usd" = "twd") := by decide
    norm_num [convertBillsToBase, convertLoop, convertBill, h0, h1, h2, List.lookup]⟩
  rw [convertBillsToBase_ok_iff] at hok
  induction bills generalizing out with
  | nil =>
    simp only [convertLoop] at hok
    cases hok
    exact List.Forall₂.nil
  | cons b rest ih =>
    simp only [convertLoop] at hok
    cases hab : convertBill base (lowerStr base) entry.rates b with
    | error e => rw [hab] at hok; cases hok
    | ok ab =>
      rw [hab] at hok
      cases htail : convertLoop base (lowerStr base) entry.rates rest with
      | error e => rw [htail] at hok; cases hok
      | ok tail =>
        rw [htail] at hok
        cases hok
        refine List.Forall₂.cons ?_ (ih tail htail)
        rcases convertBill_ok_value base (lowerStr base) entry.rates b ab hab with
          ⟨hcur, hval⟩ | ⟨hcur, rate, hlk, hz, hval⟩
        · exact Or.inl ⟨hcur, by simp [hval]⟩
        · exact Or.inr ⟨hcur, rate, hlk, hz, by simp [hval]⟩

/-- Witness for C3: the 10 USD under `twd` scenario, produced by the
theorem itself. -/
theorem convertBillsToBase_values_witness :
    List.Forall₂ (fun bin bout =>
      (resolveCurrency (lowerStr "twd") bin.currency = lowerStr "twd" ∧
        bout.amountBase = bin.amount) ∨
      (resolveCurrency (lowerStr "twd") bin.currency ≠ lowerStr "twd" ∧
        ∃ rate, (rateEntry.mk [("usd", 1/10)] "" 0).rates.lookup
            (resolveCurrency (lowerStr "twd") bin.currency) = some rate ∧
          rate ≠ 0 ∧ bout.amountBase = bin.amount / rate))
      [(⟨1, "flight", 10, "", "USD", 0, 1, [1]⟩ : Bill)]
      [(⟨1, "flight", 10, "", "USD", 100, 1, [1]⟩ : Bill)] :=
  (convertBillsToBase_values "twd" ⟨[("usd", 1/10)], "", 0⟩
    [⟨1, "flight", 10, "", "USD", 0, 1, [1]⟩]
    [⟨1, "flight", 10, "", "USD", 100, 1, [1]⟩]
    (by
      have h0 : lowerStr "twd" = "twd" := by decide
      have h1 : resolveCurrency "twd" "USD" = "usd" := by decide
      have h2 : ¬("usd" = "twd") := by decide
      norm_num [convertBillsToBase, convertLoop, convertBill, h0, h1, h2, List.lookup])).1

theorem convertLoop_first_offender (base baseLower : String)
    (rates : List (String × ℚ)) (bills : List Bill)
    (hbad : ∃ b ∈ bills, billOffends baseLower rates b) :
    ∃ b ∈ bills, billOffends baseLower rates b ∧
      convertLoop base baseLower rates bills =
        .error (missingRateMsg base (resolveCurrency baseLower b.currency)) := by
  induction bills with
  | nil => simp at hbad
  | cons b rest ih =>
    by_cases hb : billOffends baseLower rates b
    · refine ⟨b, List.mem_cons_self b rest, hb, ?_⟩
      simp only [convertLoop, convertBill_offends base baseLower rates b hb]
    · have hbad' : ∃ b' ∈ rest, billOffends baseLower rates b' := by
        rcases hbad with ⟨b', hmem, hoff⟩
        rcases List.mem_cons.mp hmem with h | h
        · exact absurd (h ▸ hoff) hb
        · exact ⟨b', h, hoff⟩
      rcases ih hbad' with ⟨b', hmem', hoff', herr'⟩
      refine ⟨b', List.mem_cons_of_mem b hmem', hoff', ?_⟩
      rcases convertBill_not_offends base baseLower rates b hb with ⟨ab, hab⟩
      simp only [convertLoop, hab, herr']

/-- C5: if any bill's resolved non-base currency is absent from the rate
table or mapped to exactly zero, `convertBillsToBase` returns no bills at
all, still returns the table's date, and the error names an offending
currency code (the first one the loop meets). -/
theorem convertBillsToBase_missing_rate (base : String) (entry : rateEntry)
    (bills : List Bill)
    (hbad : ∃ b ∈ bills, billOffends (lowerStr base) entry.rates b) :
    (convertBillsToBase base entry bills).1 = none ∧
    (convertBillsToBase base entry bills).2.1 = entry.date ∧
    ∃ b ∈ bills, billOffends (lowerStr base) entry.rates b ∧
      (convertBillsToBase base entry bills).2.2 =
        some (missingRateMsg base (resolveCurrency (lowerStr base) b.currency)) := by
  rcases convertLoop_first_offender base (lowerStr base) entry.rates bills hbad with
    ⟨b, hmem, hoff, herr⟩
  unfold convertBillsToBase
  rw [herr]
  exact ⟨rfl, rfl, b, hmem, hoff, rfl⟩

/-- Witness for C5: a bill in JPY against a table that only knows `usd`
aborts the conversion with an error naming `JPY`, while the date is still
reported. -/
theorem convertBillsToBase_missing_rate_witness :
    (convertBillsToBase "twd" ⟨[("usd", 1/10)], "2024-01-01", 0⟩
        [⟨1, "train", 500, "", "JPY", 0, 1, [1]⟩]).1 = none ∧
    (convertBillsToBase "twd" ⟨[("usd", 1/10)], "2024-01-01", 0⟩
        [⟨1, "train", 500, "", "JPY", 0, 1, [1]⟩]).2.1 = "2024-01-01" ∧
    ∃ b ∈ [(⟨1, "train", 500, "", "JPY", 0, 1, [1]⟩ : Bill)],
      billOffends (lowerStr "twd") [("usd", 1/10)] b ∧
      (convertBillsToBase "twd" ⟨[("usd", 1/10)], "2024-01-01", 0⟩
          [⟨1, "train", 500, "", "JPY", 0, 1, [1]⟩]).2.2 =
        some (missingRateMsg "twd" (resolveCurrency (lowerStr "twd") b.currency)) :=
  convertBillsToBase_missing_rate "twd" ⟨[("usd", 1/10)], "2024-01-01", 0⟩
    [⟨1, "train", 500, "", "JPY", 0, 1, [1]⟩]
    ⟨⟨1, "train", 500, "", "JPY", 0, 1, [1]⟩, List.mem_singleton.mpr rfl, by decide⟩

/-! ## Rate-acquisition policy (claim C6) -/

/-- C6: the three-step policy of `getRates`.  A cache entry fresher than
the TTL is returned unchanged with no fetch effect; a stale entry is
replaced on a successful fetch but silently served on a failed one; with
no cache entry a successful fetch is stored and returned while a failed
one propagates its error. -/
theorem getRates_policy (cache : List (String × rateEntry)) (now : ℚ)
    (fetchResult : Except String rateEntry) (base : String) :
    (∀ e, cache.lookup base = some e → now - e.fetchedAt < rateCacheTTL →
      getRates cache now fetchResult base = (.ok e, cache)) ∧
    (∀ e, cache.lookup base = some e → ¬(now - e.fetchedAt < rateCacheTTL) →
      (∀ fresh, fetchResult = .ok fresh →
        getRates cache now fetchResult base = (.ok fresh, setAssoc cache base fresh)) ∧
      (∀ err, fetchResult = .error err →
        getRates cache now fetchResult base = (.ok e, cache))) ∧
    (cache.lookup base = none →
      (∀ fresh, fetchResult = .ok fresh →
        getRates cache now fetchResult base = (.ok fresh, setAssoc cache base fresh)) ∧
      (∀ err, fetchResult = .error err →
        getRates cache now fetchResult base = (.error err, cache))) := by
  refine ⟨?_, ?_, ?_⟩
  · intro e he hfresh
    simp [getRates, he, hfresh]
  · intro e he hstale
    refine ⟨?_, ?_⟩
    · intro fresh hf
      simp [getRates, he, hstale, hf]
    · intro err hf
      simp [getRates, he, hstale, hf]
  · intro hnone
    refine ⟨?_, ?_⟩
    · intro fresh hf
      simp [getRates, hnone, hf]
    · intro err hf
      simp [getRates, hnone, hf]

/-- Witness for C6 on concrete data: a fresh entry (fetched at time 0,
read at time 10, TTL 30) is served as-is even though the fetch would have
failed. -/
theorem getRates_policy_witness :
    getRates [("twd", ⟨[("twd", 1)], "2024-01-01", 0⟩)] 10 (.error "down") "twd" =
      (.ok ⟨[("twd", 1)], "2024-01-01", 0⟩, [("twd", ⟨[("twd", 1)], "2024-01-01", 0⟩)]) :=
  (getRates_policy [("twd", ⟨[("twd", 1)], "2024-01-01", 0⟩)] 10 (.error "down") "twd").1
    ⟨[("twd", 1)], "2024-01-01", 0⟩ (by simp) (by norm_num [rateCacheTTL])

/-! ## Rate-response parsing (claim C8) -/

theorem lookup_setAssoc_self {α : Type} (m : List (String × α)) (k : String) (v : α) :
    (setAssoc m k v).lookup k = some v := by
  induction m with
  | nil => simp [setAssoc]
  | cons p rest ih =>
    rcases p with ⟨k₁, v₁⟩
    by_cases hk : k₁ = k
    · simp [setAssoc, hk]
    · have hne : (k == k₁) = false := beq_eq_false_iff_ne.mpr fun h => hk h.symm
      simp [setAssoc, hk, List.lookup, hne, ih]

/-- C8: a successfully parsed rate table maps the lower-cased base
currency to exactly `1` no matter what the response held, and parsing
fails when the lower-cased base key is absent from the JSON object. -/
theorem parseRateResponse_base_rate (base : String) (data : JsonVal) :
    (∀ e, parseRateResponse base data = .ok e →
      e.rates.lookup (lowerStr base) = some 1) ∧
    (∀ raw, goLookup raw (lowerStr base) = none →
      ∃ msg, parseRateResponse base (.obj raw) = .error msg) := by
  constructor
  · intro e he
    cases data with
    | obj raw =>
      simp only [parseRateResponse] at he
      repeat' split at he
      all_goals cases he
      exact lookup_setAssoc_self _ _ _
    | null => cases he
    | bool b => cases he
    | num q => cases he
    | str s => cases he
    | arr xs => cases he
  · intro raw hnone
    cases hd : goLookup raw "date" with
    | none =>
      exact ⟨"找不到基準幣別的匯率資料", by simp [parseRateResponse, hd, hnone]⟩
    | some v =>
      cases v with
      | str s =>
        exact ⟨"找不到基準幣別的匯率資料", by simp [parseRateResponse, hd, hnone]⟩
      | null =>
        exact ⟨"json: cannot unmarshal value into Go value of type string",
          by simp [parseRateResponse, hd]⟩
      | bool b =>
        exact ⟨"json: cannot unmarshal value into Go value of type string",
          by simp [parseRateResponse, hd]⟩
      | num q =>
        exact ⟨"json: cannot unmarshal value into Go value of type string",
          by simp [parseRateResponse, hd]⟩
      | arr xs =>
        exact ⟨"json: cannot unmarshal value into Go value of type string",
          by simp [parseRateResponse, hd]⟩
      | obj fs =>
        exact ⟨"json: cannot unmarshal value into Go value of type string",
          by simp [parseRateResponse, hd]⟩

/-- Witness for C8: a response that maps the base `twd` to `7` still
parses to a table with `twd ↦ 1`, and a response missing the base key is
rejected. -/
theorem parseRateResponse_base_rate_witness :
    (rateEntry.mk [("usd", 1/10), ("twd", 1)] "2024-01-01" 0).rates.lookup
        (lowerStr "TWD") = some 1 ∧
    ∃ msg, parseRateResponse "TWD" (.obj [("date", .str "2024-01-01")]) = .error msg :=
  ⟨(parseRateResponse_base_rate "TWD"
      (.obj [("date", .str "2024-01-01"),
             ("twd", .obj [("usd", .num (1/10)), ("twd", .num 7)])])).1
    ⟨[("usd", 1/10), ("twd", 1)], "2024-01-01", 0⟩ (by
      have h0 : lowerStr "TWD" = "twd" := by decide
      norm_num +decide [parseRateResponse, goLookup, decodeRatesMap, setAssoc, h0]),
   (parseRateResponse_base_rate "TWD" (.obj [("date", .str "2024-01-01")])).2
    [("date", .str "2024-01-01")] (by rfl)⟩

/-! ## Greedy-loop lemmas (claims C7, C9, C1) -/

theorem greedyAux_nil_of_empty (nm : Int → String) (cs ds : List (Int × ℚ))
    (h : cs = [] ∨ ds = []) : (greedyAux nm cs ds).1 = [] := by
  rcases h with rfl | rfl
  · simp [greedyAux]
  · cases cs with
    | nil => simp [greedyAux]
    | cons c cs => simp [greedyAux]

theorem greedyAux_length (nm : Int → String) (cs ds : List (Int × ℚ)) :
    (greedyAux nm cs ds).1.length ≤ cs.length + ds.length - 1 := by
  induction cs, ds using greedyAux.induct nm with
  | case1 ds => simp [greedyAux]
  | case2 c cs => simp [greedyAux]
  | case3 cid camt cs did damt ds h1 camt' h2 ih =>
    have h2' : camt - damt < 1/100 := h2
    simp only [greedyAux, if_pos h1, if_pos h2', List.length_cons]
    omega
  | case4 cid camt cs did damt ds h1 camt' h2 ih =>
    have h2' : ¬(camt - damt < 1/100) := h2
    have ih' : (greedyAux nm ((cid, camt - damt) :: cs) ds).1.length ≤
        ((cid, camt - damt) :: cs).length + ds.length - 1 := ih
    simp only [greedyAux, if_pos h1, if_neg h2', List.length_cons] at ih' ⊢
    omega
  | case5 cid camt cs did damt ds h1 damt' h2 ih =>
    have h2' : damt - camt < 1/100 := h2
    simp only [greedyAux, if_neg h1, if_pos h2', List.length_cons]
    omega
  | case6 cid camt cs did damt ds h1 damt' h2 ih =>
    have h2' : ¬(damt - camt < 1/100) := h2
    have ih' : (greedyAux nm cs ((did, damt - camt) :: ds)).1.length ≤
        cs.length + ((did, damt - camt) :: ds).length - 1 := ih
    simp only [greedyAux, if_neg h1, if_neg h2', List.length_cons] at ih' ⊢
    omega

/-- C7: the greedy loop is a terminating function, emits no transfer when
either partition is empty, and never emits more than
`|creditors| + |debtors| − 1` transfers. -/
theorem calculate_transfer_bound (people : List Person) (bills : List Bill) :
    (calculate people bills).length ≤
      (creditorsOf (balancesAfter people bills)).length +
        (debtorsOf (balancesAfter people bills)).length - 1 ∧
    ((creditorsOf (balancesAfter people bills) = [] ∨
        debtorsOf (balancesAfter people bills) = []) →
      calculate people bills = []) :=
  ⟨greedyAux_length _ _ _, fun h => greedyAux_nil_of_empty _ _ _ h⟩

/-- Witness for C7: with one person and no bill both partitions are empty
and the plan is empty. -/
theorem calculate_transfer_bound_witness :
    calculate [⟨1, "A"⟩] [] = [] :=
  (calculate_transfer_bound [⟨1, "A"⟩] []).2
    (Or.inl (by norm_num [creditorsOf, balancesAfter, initBal, BalMap.add]))

theorem greedyAux_amounts (nm : Int → String) (cs ds : List (Int × ℚ)) :
    (∀ x ∈ cs, (1:ℚ)/100 ≤ x.2) → (∀ x ∈ ds, (1:ℚ)/100 ≤ x.2) →
    ∀ s ∈ (greedyAux nm cs ds).1, (1:ℚ)/100 ≤ s.Amount := by
  induction cs, ds using greedyAux.induct nm with
  | case1 ds => simp [greedyAux]
  | case2 c cs => simp [greedyAux]
  | case3 cid camt cs did damt ds h1 camt' h2 ih =>
    intro hcs hds s hs
    have h2' : camt - damt < 1/100 := h2
    simp only [greedyAux, if_pos h1, if_pos h2'] at hs
    rcases List.mem_cons.mp hs with rfl | hs'
    · exact hds (did, damt) (List.mem_cons_self _ _)
    · exact ih (fun x hx => hcs x (List.mem_cons_of_mem _ hx))
        (fun x hx => hds x (List.mem_cons_of_mem _ hx)) s hs'
  | case4 cid camt cs did damt ds h1 camt' h2 ih =>
    intro hcs hds s hs
    have h2' : ¬(camt - damt < 1/100) := h2
    simp only [greedyAux, if_pos h1, if_neg h2'] at hs
    rcases List.mem_cons.mp hs with rfl | hs'
    · exact hds (did, damt) (List.mem_cons_self _ _)
    · refine ih ?_ (fun x hx => hds x (List.mem_cons_of_mem _ hx)) s hs'
      intro x hx
      rcases List.mem_cons.mp hx with rfl | hx'
      · exact le_of_not_lt h2'
      · exact hcs x (List.mem_cons_of_mem _ hx')
  | case5 cid camt cs did damt ds h1 damt' h2 ih =>
    intro hcs hds s hs
    have h2' : damt - camt < 1/100 := h2
    simp only [greedyAux, if_neg h1, if_pos h2'] at hs
    rcases List.mem_cons.mp hs with rfl | hs'
    · exact hcs (cid, camt) (List.mem_cons_self _ _)
    · exact ih (fun x hx => hcs x (List.mem_cons_of_mem _ hx))
        (fun x hx => hds x (List.mem_cons_of_mem _ hx)) s hs'
  | case6 cid camt cs did damt ds h1 damt' h2 ih =>
    intro hcs hds s hs
    have h2' : ¬(damt - camt < 1/100) := h2
    simp only [greedyAux, if_neg h1, if_neg h2'] at hs
    rcases List.mem_cons.mp hs with rfl | hs'
    · exact hcs (cid, camt) (List.mem_cons_self _ _)
    · refine ih (fun x hx => hcs x (List.mem_cons_of_mem _ hx)) ?_ s hs'
      intro x hx
      rcases List.mem_cons.mp hx with rfl | hx'
      · exact le_of_not_lt h2'
      · exact hds x (List.mem_cons_of_mem _ hx')

theorem mem_creditorsOf (m : BalMap) (x : Int × ℚ) (hx : x ∈ creditorsOf m) :
    x.1 ∈ m.keys ∧ x.2 = m.val x.1 ∧ (1:ℚ)/100 < x.2 := by
  simp only [creditorsOf, List.mem_map, List.mem_filter] at hx
  rcases hx with ⟨k, ⟨hk, hv⟩, rfl⟩
  exact ⟨hk, rfl, of_decide_eq_true hv⟩

theorem mem_debtorsOf (m : BalMap) (x : Int × ℚ) (hx : x ∈ debtorsOf m) :
    x.1 ∈ m.keys ∧ x.2 = -(m.val x.1) ∧ (1:ℚ)/100 < x.2 := by
  simp only [debtorsOf, List.mem_map, List.mem_filter] at hx
  rcases hx with ⟨k, ⟨hk, hv⟩, rfl⟩
  have hlt : m.val k < -(1/100) := of_decide_eq_true hv
  exact ⟨hk, rfl, by linarith⟩

/-- C9: every settlement `calculate` emits transfers at least `0.01`, and
in particular a strictly positive amount. -/
theorem calculate_amounts_positive (people : List Person) (bills : List Bill) :
    ∀ s ∈ calculate people bills, (1:ℚ)/100 ≤ s.Amount ∧ 0 < s.Amount := by
  intro s hs
  have h := greedyAux_amounts (nameMapOf people)
    (creditorsOf (balancesAfter people bills)) (debtorsOf (balancesAfter people bills))
    (fun x hx => le_of_lt (mem_creditorsOf _ x hx).2.2)
    (fun x hx => le_of_lt (mem_debtorsOf _ x hx).2.2) s hs
  exact ⟨h, lt_of_lt_of_le (by norm_num) h⟩

/-- Witness for C9: in the two-person scenario the emitted transfer of
`100` is at least `0.01` and positive. -/
theorem calculate_amounts_positive_witness :
    (1:ℚ)/100 ≤ (Settlement.mk "Bob" "Alice" 100).Amount ∧
      0 < (Settlement.mk "Bob" "Alice" 100).Amount :=
  calculate_amounts_positive [⟨1, "Alice"⟩, ⟨2, "Bob"⟩] [⟨1, "d", 200, "", "", 200, 1, [1, 2]⟩]
    (Settlement.mk "Bob" "Alice" 100)
    (by norm_num [calculate, greedyLoop, greedyAux, balancesAfter, applyBill, initBal,
      BalMap.add, creditorsOf, debtorsOf, nameMapOf])

theorem receivedBy_cons (s : Settlement) (ss : List Settlement) (name : String) :
    receivedBy (s :: ss) name =
      (if s.To = name then s.Amount else 0) + receivedBy ss name := by
  by_cases h : s.To = name <;> simp [receivedBy, List.filter_cons, h]

theorem paidOutBy_cons (s : Settlement) (ss : List Settlement) (name : String) :
    paidOutBy (s :: ss) name =
      (if s.From = name then s.Amount else 0) + paidOutBy ss name := by
  by_cases h : s.From = name <;> simp [paidOutBy, List.filter_cons, h]

theorem receivedBy_eq_zero (ss : List Settlement) (name : String)
    (h : ∀ s ∈ ss, s.To ≠ name) : receivedBy ss name = 0 := by
  induction ss with
  | nil => rfl
  | cons s t ih =>
    rw [receivedBy_cons, if_neg (h s (List.mem_cons_self s t)),
      ih fun x hx => h x (List.mem_cons_of_mem s hx)]
    ring

theorem paidOutBy_eq_zero (ss : List Settlement) (name : String)
    (h : ∀ s ∈ ss, s.From ≠ name) : paidOutBy ss name = 0 := by
  induction ss with
  | nil => rfl
  | cons s t ih =>
    rw [paidOutBy_cons, if_neg (h s (List.mem_cons_self s t)),
      ih fun x hx => h x (List.mem_cons_of_mem s hx)]
    ring

/-- Every settlement the greedy loop emits is addressed to (`To`) the name
of some entry of the creditor list. -/
theorem greedyAux_to_names (nm : Int → String) (cs ds : List (Int × ℚ)) :
    ∀ s ∈ (greedyAux nm cs ds).1, ∃ c ∈ cs, s.To = nm c.1 := by
  induction cs, ds using greedyAux.induct nm with
  | case1 ds => simp [greedyAux]
  | case2 c cs => simp [greedyAux]
  | case3 cid camt cs did damt ds h1 camt' h2 ih =>
    intro s hs
    have h2' : camt - damt < 1/100 := h2
    simp only [greedyAux, if_pos h1, if_pos h2'] at hs
    rcases List.mem_cons.mp hs with rfl | hs'
    · exact ⟨(cid, camt), List.mem_cons_self _ _, rfl⟩
    · rcases ih s hs' with ⟨c, hc, hTo⟩
      exact ⟨c, List.mem_cons_of_mem _ hc, hTo⟩
  | case4 cid camt cs did damt ds h1 camt' h2 ih =>
    intro s hs
    have h2' : ¬(camt - damt < 1/100) := h2
    simp only [greedyAux, if_pos h1, if_neg h2'] at hs
    rcases List.mem_cons.mp hs with rfl | hs'
    · exact ⟨(cid, camt), List.mem_cons_self _ _, rfl⟩
    · rcases ih s hs' with ⟨c, hc, hTo⟩
      rcases List.mem_cons.mp hc with rfl | hc'
      · exact ⟨(cid, camt), List.mem_cons_self _ _, hTo⟩
      · exact ⟨c, List.mem_cons_of_mem _ hc', hTo⟩
  | case5 cid camt cs did damt ds h1 damt' h2 ih =>
    intro s hs
    have h2' : damt - camt < 1/100 := h2
    simp only [greedyAux, if_neg h1, if_pos h2'] at hs
    rcases List.mem_cons.mp hs with rfl | hs'
    · exact ⟨(cid, camt), List.mem_cons_self _ _, rfl⟩
    · rcases ih s hs' with ⟨c, hc, hTo⟩
      exact ⟨c, List.mem_cons_of_mem _ hc, hTo⟩
  | case6 cid camt cs did damt ds h1 damt' h2 ih =>
    intro s hs
    have h2' : ¬(damt - camt < 1/100) := h2
    simp only [greedyAux, if_neg h1, if_neg h2'] at hs
    rcases List.mem_cons.mp hs with rfl | hs'
    · exact ⟨(cid, camt), List.mem_cons_self _ _, rfl⟩
    · rcases ih s hs' with ⟨c, hc, hTo⟩
      exact ⟨c, List.mem_cons_of_mem _ hc, hTo⟩

/-- Every settlement the greedy loop emits is paid (`From`) by the name of
some entry of the debtor list. -/
theorem greedyAux_from_names (nm : Int → String) (cs ds : List (Int × ℚ)) :
    ∀ s ∈ (greedyAux nm cs ds).1, ∃ d ∈ ds, s.From = nm d.1 := by
  induction cs, ds using greedyAux.induct nm with
  | case1 ds => simp [greedyAux]
  | case2 c cs => simp [greedyAux]
  | case3 cid camt cs did damt ds h1 camt' h2 ih =>
    intro s hs
    have h2' : camt - damt < 1/100 := h2
    simp only [greedyAux, if_pos h1, if_pos h2'] at hs
    rcases List.mem_cons.mp hs with rfl | hs'
    · exact ⟨(did, damt), List.mem_cons_self _ _, rfl⟩
    · rcases ih s hs' with ⟨d, hd, hFrom⟩
      exact ⟨d, List.mem_cons_of_mem _ hd, hFrom⟩
  | case4 cid camt cs did damt ds h1 camt' h2 ih =>
    intro s hs
    have h2' : ¬(camt - damt < 1/100) := h2
    simp only [greedyAux, if_pos h1, if_neg h2'] at hs
    rcases List.mem_cons.mp hs with rfl | hs'
    · exact ⟨(did, damt), List.mem_cons_self _ _, rfl⟩
    · rcases ih s hs' with ⟨d, hd, hFrom⟩
      exact ⟨d, List.mem_cons_of_mem _ hd, hFrom⟩
  | case5 cid camt cs did damt ds h1 damt' h2 ih =>
    intro s hs
    have h2' : damt - camt < 1/100 := h2
    simp only [greedyAux, if_neg h1, if_pos h2'] at hs
    rcases List.mem_cons.mp hs with rfl | hs'
    · exact ⟨(did, damt), List.mem_cons_self _ _, rfl⟩
    · rcases ih s hs' with ⟨d, hd, hFrom⟩
      exact ⟨d, List.mem_cons_of_mem _ hd, hFrom⟩
  | case6 cid camt cs did damt ds h1 damt' h2 ih =>
    intro s hs
    have h2' : ¬(damt - camt < 1/100) := h2
    simp only [greedyAux, if_neg h1, if_neg h2'] at hs
    rcases List.mem_cons.mp hs with rfl | hs'
    · exact ⟨(did, damt), List.mem_cons_self _ _, rfl⟩
    · rcases ih s hs' with ⟨d, hd, hFrom⟩
      rcases List.mem_cons.mp hd with rfl | hd'
      · exact ⟨(did, damt), List.mem_cons_self _ _, hFrom⟩
      · exact ⟨d, List.mem_cons_of_mem _ hd', hFrom⟩

/-- Unpacking of the distinct-names hypothesis for one step of the greedy
loop: all the name inequalities and the recursive-call instances. -/
theorem names_nodup_facts (nm : Int → String) (cid did : Int) (camt damt : ℚ)
    (cs ds : List (Int × ℚ))
    (h : ((((cid, camt) :: cs) ++ ((did, damt) :: ds)).map (fun x => nm x.1)).Nodup) :
    (∀ x ∈ cs, nm x.1 ≠ nm cid) ∧ (nm did ≠ nm cid) ∧ (∀ x ∈ ds, nm x.1 ≠ nm cid) ∧
    (∀ x ∈ cs, nm x.1 ≠ nm did) ∧ (∀ x ∈ ds, nm x.1 ≠ nm did) ∧
    ((cs ++ ds).map (fun x => nm x.1)).Nodup ∧
    (∀ amt', ((((cid, amt') :: cs) ++ ds).map (fun x => nm x.1)).Nodup) ∧
    (∀ amt', ((cs ++ ((did, amt') :: ds)).map (fun x => nm x.1)).Nodup) := by
  rw [List.cons_append, List.map_cons] at h
  rcases List.nodup_cons.mp h with ⟨hcidNot, hrest⟩
  rw [List.map_append, List.map_cons] at hrest
  rw [List.map_append, List.map_cons] at hcidNot
  rcases List.nodup_append.mp hrest with ⟨hcsNd, hdNd, hdisj⟩
  rcases List.nodup_cons.mp hdNd with ⟨hdidNot, hdsNd⟩
  have f1 : ∀ x ∈ cs, nm x.1 ≠ nm cid := by
    intro x hx heq
    exact hcidNot (List.mem_append_left _ (heq ▸ List.mem_map_of_mem _ hx))
  have f2 : nm did ≠ nm cid := by
    intro heq
    exact hcidNot (List.mem_append_right _ (heq ▸ List.mem_cons_self _ _))
  have f3 : ∀ x ∈ ds, nm x.1 ≠ nm cid := by
    intro x hx heq
    exact hcidNot
      (List.mem_append_right _ (List.mem_cons_of_mem _ (heq ▸ List.mem_map_of_mem _ hx)))
  have f4 : ∀ x ∈ cs, nm x.1 ≠ nm did := by
    intro x hx heq
    exact (hdisj (List.mem_map_of_mem _ hx)) (heq ▸ List.mem_cons_self _ _)
  have f5 : ∀ x ∈ ds, nm x.1 ≠ nm did := by
    intro x hx heq
    exact hdidNot (heq ▸ List.mem_map_of_mem _ hx)
  have f6 : ((cs ++ ds).map (fun x => nm x.1)).Nodup := by
    rw [List.map_append]
    refine List.nodup_append.mpr ⟨hcsNd, hdsNd, ?_⟩
    intro a ha hb
    exact (hdisj ha) (List.mem_cons_of_mem _ hb)
  refine ⟨f1, f2, f3, f4, f5, f6, ?_, ?_⟩
  · intro amt'
    rw [List.cons_append, List.map_cons]
    refine List.nodup_cons.mpr ⟨?_, ?_⟩
    · intro hmem
      rw [List.map_append] at hmem
      rcases List.mem_append.mp hmem with hmem | hmem
      · rcases List.mem_map.mp hmem with ⟨x, hx, heq⟩
        exact f1 x hx heq
      · rcases List.mem_map.mp hmem with ⟨x, hx, heq⟩
        exact f3 x hx heq
    · exact f6
  · intro amt'
    rw [List.map_append, List.map_cons]
    refine List.nodup_append.mpr ⟨hcsNd, List.nodup_cons.mpr ⟨hdidNot, hdsNd⟩, ?_⟩
    exact hdisj

/-- Per-party accounting of the greedy loop.  With entries of at least
`0.01` and pairwise-distinct display names, every creditor receives (as
`To`) at most its listed amount, and misses it by less than `0.01`
whenever the loop consumed the whole creditor list; symmetrically for
debtors and the `From` sums. -/
theorem greedyAux_bounds (nm : Int → String) (cs ds : List (Int × ℚ)) :
    (∀ x ∈ cs, (1:ℚ)/100 ≤ x.2) → (∀ x ∈ ds, (1:ℚ)/100 ≤ x.2) →
    (((cs ++ ds).map (fun x => nm x.1)).Nodup) →
    (∀ x ∈ cs, receivedBy (greedyAux nm cs ds).1 (nm x.1) ≤ x.2 ∧
      ((greedyAux nm cs ds).2.1 = [] →
        x.2 - receivedBy (greedyAux nm cs ds).1 (nm x.1) < 1/100)) ∧
    (∀ x ∈ ds, paidOutBy (greedyAux nm cs ds).1 (nm x.1) ≤ x.2 ∧
      ((greedyAux nm cs ds).2.2 = [] →
        x.2 - paidOutBy (greedyAux nm cs ds).1 (nm x.1) < 1/100)) := by
  induction cs, ds using greedyAux.induct nm with
  | case1 ds =>
    intro hcs hds hnames
    constructor
    · intro x hx
      exact absurd hx (List.not_mem_nil x)
    · intro x hx
      have hres : greedyAux nm ([] : List (Int × ℚ)) ds = ([], [], ds) := by
        simp [greedyAux]
      rw [hres]
      refine ⟨?_, ?_⟩
      · have h1 := hds x hx
        have h0 : paidOutBy [] (nm x.1) = 0 := rfl
        rw [h0]
        linarith
      · intro hempty
        have hds0 : ds = [] := hempty
        rw [hds0] at hx
        exact absurd hx (List.not_mem_nil x)
  | case2 c cs =>
    intro hcs hds hnames
    constructor
    · intro x hx
      have hres : greedyAux nm (c :: cs) ([] : List (Int × ℚ)) = ([], c :: cs, []) := by
        simp [greedyAux]
      rw [hres]
      refine ⟨?_, ?_⟩
      · have h1 := hcs x hx
        have h0 : receivedBy [] (nm x.1) = 0 := rfl
        rw [h0]
        linarith
      · intro hempty
        exact absurd hempty (List.cons_ne_nil c cs)
    · intro x hx
      exact absurd hx (List.not_mem_nil x)
  | case3 cid camt cs did damt ds h1 camt' h2 ih =>
    intro hcs hds hnames
    have h2' : camt - damt < 1/100 := h2
    obtain ⟨f1, f2, f3, f4, f5, f6, f7, f8⟩ :=
      names_nodup_facts nm cid did camt damt cs ds hnames
    have hres : greedyAux nm ((cid, camt) :: cs) ((did, damt) :: ds) =
        (⟨nm did, nm cid, damt⟩ :: (greedyAux nm cs ds).1, (greedyAux nm cs ds).2) := by
      simp only [greedyAux]
      rw [if_pos h1, if_pos h2']
    obtain ⟨ihc, ihd⟩ := ih (fun x hx => hcs x (List.mem_cons_of_mem _ hx))
      (fun x hx => hds x (List.mem_cons_of_mem _ hx)) f6
    rw [hres]
    constructor
    · intro x hx
      rcases List.mem_cons.mp hx with rfl | hx'
      · have hzero : receivedBy (greedyAux nm cs ds).1 (nm cid) = 0 := by
          apply receivedBy_eq_zero
          intro s hs
          rcases greedyAux_to_names nm cs ds s hs with ⟨c, hc, hTo⟩
          rw [hTo]
          exact f1 c hc
        refine ⟨?_, ?_⟩
        · simp only [receivedBy_cons, hzero]
          rw [if_true]
          linarith
        · intro hE
          simp only [receivedBy_cons, hzero]
          rw [if_true]
          linarith
      · have hne : nm cid ≠ nm x.1 := fun h => f1 x hx' h.symm
        refine ⟨?_, ?_⟩
        · simp only [receivedBy_cons]
          rw [if_neg hne, zero_add]
          exact (ihc x hx').1
        · intro hE
          simp only [receivedBy_cons]
          rw [if_neg hne, zero_add]
          exact (ihc x hx').2 hE
    · intro x hx
      rcases List.mem_cons.mp hx with rfl | hx'
      · have hzero : paidOutBy (greedyAux nm cs ds).1 (nm did) = 0 := by
          apply paidOutBy_eq_zero
          intro s hs
          rcases greedyAux_from_names nm cs ds s hs with ⟨d, hd, hFrom⟩
          rw [hFrom]
          exact f5 d hd
        refine ⟨?_, ?_⟩
        · simp only [paidOutBy_cons, hzero]
          rw [if_true]
          linarith
        · intro hE
          simp only [paidOutBy_cons, hzero]
          rw [if_true]
          linarith
      · have hne : nm did ≠ nm x.1 := fun h => f5 x hx' h.symm
        refine ⟨?_, ?_⟩
        · simp only [paidOutBy_cons]
          rw [if_neg hne, zero_add]
          exact (ihd x hx').1
        · intro hE
          simp only [paidOutBy_cons]
          rw [if_neg hne, zero_add]
          exact (ihd x hx').2 hE
  | case4 cid camt cs did damt ds h1 camt' h2 ih =>
    intro hcs hds hnames
    have h2' : ¬(camt - damt < 1/100) := h2
    obtain ⟨f1, f2, f3, f4, f5, f6, f7, f8⟩ :=
      names_nodup_facts nm cid did camt damt cs ds hnames
    have hres : greedyAux nm ((cid, camt) :: cs) ((did, damt) :: ds) =
        (⟨nm did, nm cid, damt⟩ :: (greedyAux nm ((cid, camt - damt) :: cs) ds).1,
          (greedyAux nm ((cid, camt - damt) :: cs) ds).2) := by
      simp only [greedyAux]
      rw [if_pos h1, if_neg h2']
    have hcs' : ∀ x ∈ (cid, camt - damt) :: cs, (1:ℚ)/100 ≤ x.2 := by
      intro x hx
      rcases List.mem_cons.mp hx with rfl | hx'
      · exact le_of_not_lt h2'
      · exact hcs x (List.mem_cons_of_mem _ hx')
    obtain ⟨ihc, ihd⟩ := ih hcs' (fun x hx => hds x (List.mem_cons_of_mem _ hx))
      (f7 (camt - damt))
    have hdef : camt' = camt - damt := rfl
    rw [hdef] at ihc ihd
    rw [hres]
    constructor
    · intro x hx
      rcases List.mem_cons.mp hx with rfl | hx'
      · have hhead : receivedBy (greedyAux nm ((cid, camt - damt) :: cs) ds).1 (nm cid) ≤
            camt - damt ∧
            ((greedyAux nm ((cid, camt - damt) :: cs) ds).2.1 = [] →
              camt - damt -
                receivedBy (greedyAux nm ((cid, camt - damt) :: cs) ds).1 (nm cid) < 1/100) :=
          ihc (cid, camt - damt) (List.mem_cons_self _ _)
        refine ⟨?_, ?_⟩
        · simp only [receivedBy_cons]
          rw [if_true]
          linarith [hhead.1]
        · intro hE
          simp only [receivedBy_cons]
          rw [if_true]
          linarith [hhead.2 hE]
      · have hne : nm cid ≠ nm x.1 := fun h => f1 x hx' h.symm
        have htail := ihc x (List.mem_cons_of_mem _ hx')
        refine ⟨?_, ?_⟩
        · simp only [receivedBy_cons]
          rw [if_neg hne, zero_add]
          exact htail.1
        · intro hE
          simp only [receivedBy_cons]
          rw [if_neg hne, zero_add]
          exact htail.2 hE
    · intro x hx
      rcases List.mem_cons.mp hx with rfl | hx'
      · have hzero :
            paidOutBy (greedyAux nm ((cid, camt - damt) :: cs) ds).1 (nm did) = 0 := by
          apply paidOutBy_eq_zero
          intro s hs
          rcases greedyAux_from_names nm ((cid, camt - damt) :: cs) ds s hs with ⟨d, hd, hFrom⟩
          rw [hFrom]
          exact f5 d hd
        refine ⟨?_, ?_⟩
        · simp only [paidOutBy_cons, hzero]
          rw [if_true]
          linarith
        · intro hE
          simp only [paidOutBy_cons, hzero]
          rw [if_true]
          linarith
      · have hne : nm did ≠ nm x.1 := fun h => f5 x hx' h.symm
        have htail := ihd x hx'
        refine ⟨?_, ?_⟩
        · simp only [paidOutBy_cons]
          rw [if_neg hne, zero_add]
          exact htail.1
        · intro hE
          simp only [paidOutBy_cons]
          rw [if_neg hne, zero_add]
          exact htail.2 hE
  | case5 cid camt cs did damt ds h1 damt' h2 ih =>
    intro hcs hds hnames
    have h2' : damt - camt < 1/100 := h2
    obtain ⟨f1, f2, f3, f4, f5, f6, f7, f8⟩ :=
      names_nodup_facts nm cid did camt damt cs ds hnames
    have hres : greedyAux nm ((cid, camt) :: cs) ((did, damt) :: ds) =
        (⟨nm did, nm cid, camt⟩ :: (greedyAux nm cs ds).1, (greedyAux nm cs ds).2) := by
      simp only [greedyAux]
      rw [if_neg h1, if_pos h2']
    obtain ⟨ihc, ihd⟩ := ih (fun x hx => hcs x (List.mem_cons_of_mem _ hx))
      (fun x hx => hds x (List.mem_cons_of_mem _ hx)) f6
    rw [hres]
    constructor
    · intro x hx
      rcases List.mem_cons.mp hx with rfl | hx'
      · have hzero : receivedBy (greedyAux nm cs ds).1 (nm cid) = 0 := by
          apply receivedBy_eq_zero
          intro s hs
          rcases greedyAux_to_names nm cs ds s hs with ⟨c, hc, hTo⟩
          rw [hTo]
          exact f1 c hc
        refine ⟨?_, ?_⟩
        · simp only [receivedBy_cons, hzero]
          rw [if_true]
          linarith
        · intro hE
          simp only [receivedBy_cons, hzero]
          rw [if_true]
          linarith
      · have hne : nm cid ≠ nm x.1 := fun h => f1 x hx' h.symm
        refine ⟨?_, ?_⟩
        · simp only [receivedBy_cons]
          rw [if_neg hne, zero_add]
          exact (ihc x hx').1
        · intro hE
          simp only [receivedBy_cons]
          rw [if_neg hne, zero_add]
          exact (ihc x hx').2 hE
    · intro x hx
      rcases List.mem_cons.mp hx with rfl | hx'
      · have hzero : paidOutBy (greedyAux nm cs ds).1 (nm did) = 0 := by
          apply paidOutBy_eq_zero
          intro s hs
          rcases greedyAux_from_names nm cs ds s hs with ⟨d, hd, hFrom⟩
          rw [hFrom]
          exact f5 d hd
        have hle : camt ≤ damt := le_of_not_lt h1
        refine ⟨?_, ?_⟩
        · simp only [paidOutBy_cons, hzero]
          rw [if_true]
          linarith
        · intro hE
          simp only [paidOutBy_cons, hzero]
          rw [if_true]
          linarith
      · have hne : nm did ≠ nm x.1 := fun h => f5 x hx' h.symm
        refine ⟨?_, ?_⟩
        · simp only [paidOutBy_cons]
          rw [if_neg hne, zero_add]
          exact (ihd x hx').1
        · intro hE
          simp only [paidOutBy_cons]
          rw [if_neg hne, zero_add]
          exact (ihd x hx').2 hE
  | case6 cid camt cs did damt ds h1 damt' h2 ih =>
    intro hcs hds hnames
    have h2' : ¬(damt - camt < 1/100) := h2
    obtain ⟨f1, f2, f3, f4, f5, f6, f7, f8⟩ :=
      names_nodup_facts nm cid did camt damt cs ds hnames
    have hres : greedyAux nm ((cid, camt) :: cs) ((did, damt) :: ds) =
        (⟨nm did, nm cid, camt⟩ :: (greedyAux nm cs ((did, damt - camt) :: ds)).1,
          (greedyAux nm cs ((did, damt - camt) :: ds)).2) := by
      simp only [greedyAux]
      rw [if_neg h1, if_neg h2']
    have hds' : ∀ x ∈ (did, damt - camt) :: ds, (1:ℚ)/100 ≤ x.2 := by
      intro x hx
      rcases List.mem_cons.mp hx with rfl | hx'
      · exact le_of_not_lt h2'
      · exact hds x (List.mem_cons_of_mem _ hx')
    obtain ⟨ihc, ihd⟩ := ih (fun x hx => hcs x (List.mem_cons_of_mem _ hx)) hds'
      (f8 (damt - camt))
    have hdef : damt' = damt - camt := rfl
    rw [hdef] at ihc ihd
    rw [hres]
    constructor
    · intro x hx
      rcases List.mem_cons.mp hx with rfl | hx'
      · have hzero :
            receivedBy (greedyAux nm cs ((did, damt - camt) :: ds)).1 (nm cid) = 0 := by
          apply receivedBy_eq_zero
          intro s hs
          rcases greedyAux_to_names nm cs ((did, damt - camt) :: ds) s hs with ⟨c, hc, hTo⟩
          rw [hTo]
          exact f1 c hc
        refine ⟨?_, ?_⟩
        · simp only [receivedBy_cons, hzero]
          rw [if_true]
          linarith
        · intro hE
          simp only [receivedBy_cons, hzero]
          rw [if_true]
          linarith
      · have hne : nm cid ≠ nm x.1 := fun h => f1 x hx' h.symm
        have htail := ihc x hx'
        refine ⟨?_, ?_⟩
        · simp only [receivedBy_cons]
          rw [if_neg hne, zero_add]
          exact htail.1
        · intro hE
          simp only [receivedBy_cons]
          rw [if_neg hne, zero_add]
          exact htail.2 hE
    · intro x hx
      rcases List.mem_cons.mp hx with rfl | hx'
      · have hhead : paidOutBy (greedyAux nm cs ((did, damt - camt) :: ds)).1 (nm did) ≤
            damt - camt ∧
            ((greedyAux nm cs ((did, damt - camt) :: ds)).2.2 = [] →
              damt - camt -
                paidOutBy (greedyAux nm cs ((did, damt - camt) :: ds)).1 (nm did) < 1/100) :=
          ihd (did, damt - camt) (List.mem_cons_self _ _)
        refine ⟨?_, ?_⟩
        · simp only [paidOutBy_cons]
          rw [if_true]
          linarith [hhead.1]
        · intro hE
          simp only [paidOutBy_cons]
          rw [if_true]
          linarith [hhead.2 hE]
      · have hne : nm did ≠ nm x.1 := fun h => f5 x hx' h.symm
        have htail := ihd x (List.mem_cons_of_mem _ hx')
        refine ⟨?_, ?_⟩
        · simp only [paidOutBy_cons]
          rw [if_neg hne, zero_add]
          exact htail.1
        · intro hE
          simp only [paidOutBy_cons]
          rw [if_neg hne, zero_add]
          exact htail.2 hE

/-- C1 (amended): provided the partitioned creditors and debtors carry
pairwise-distinct display names, every creditor receives at most its
pre-settlement positive balance, and misses it by less than `0.01`
whenever the greedy loop consumed the entire creditor list; symmetrically
each debtor pays out at most the absolute value of its negative balance,
within `0.01` whenever the loop consumed the entire debtor list.  (The
unconditional two-sided `0.01` bound of the original claim fails for a
party left unmatched when the opposite list runs out; see the
counterexample.) -/
theorem calculate_per_person_bounds (people : List Person) (bills : List Bill)
    (hnames : (((creditorsOf (balancesAfter people bills) ++
        debtorsOf (balancesAfter people bills)).map
          (fun x => nameMapOf people x.1))).Nodup) :
    (∀ x ∈ creditorsOf (balancesAfter people bills),
      receivedBy (calculate people bills) (nameMapOf people x.1) ≤ x.2 ∧
      ((greedyAux (nameMapOf people) (creditorsOf (balancesAfter people bills))
          (debtorsOf (balancesAfter people bills))).2.1 = [] →
        x.2 - receivedBy (calculate people bills) (nameMapOf people x.1) < 1/100)) ∧
    (∀ x ∈ debtorsOf (balancesAfter people bills),
      paidOutBy (calculate people bills) (nameMapOf people x.1) ≤ x.2 ∧
      ((greedyAux (nameMapOf people) (creditorsOf (balancesAfter people bills))
          (debtorsOf (balancesAfter people bills))).2.2 = [] →
        x.2 - paidOutBy (calculate people bills) (nameMapOf people x.1) < 1/100)) :=
  greedyAux_bounds (nameMapOf people) (creditorsOf (balancesAfter people bills))
    (debtorsOf (balancesAfter people bills))
    (fun x hx => le_of_lt (mem_creditorsOf _ x hx).2.2)
    (fun x hx => le_of_lt (mem_debtorsOf _ x hx).2.2) hnames

/-- Counterexample to C1 as stated: one bill of `0.03` paid by `A` and
split over `B`, `C`, `D` makes `A` a creditor with balance `0.03`, while
all three debts of `0.01` fall inside the epsilon band and produce no
debtors, so no settlement is emitted and `A` receives `0`, which is not
within `0.01` of `0.03`. -/
theorem calculate_creditor_sum_cex :
    ((1 : Int), (3:ℚ)/100) ∈ creditorsOf (balancesAfter
      [⟨1, "A"⟩, ⟨2, "B"⟩, ⟨3, "C"⟩, ⟨4, "D"⟩]
      [⟨1, "t", 3/100, "", "", 3/100, 1, [2, 3, 4]⟩]) ∧
    nameMapOf [⟨1, "A"⟩, ⟨2, "B"⟩, ⟨3, "C"⟩, ⟨4, "D"⟩] 1 = "A" ∧
    calculate [⟨1, "A"⟩, ⟨2, "B"⟩, ⟨3, "C"⟩, ⟨4, "D"⟩]
      [⟨1, "t", 3/100, "", "", 3/100, 1, [2, 3, 4]⟩] = [] ∧
    ¬(|receivedBy (calculate [⟨1, "A"⟩, ⟨2, "B"⟩, ⟨3, "C"⟩, ⟨4, "D"⟩]
        [⟨1, "t", 3/100, "", "", 3/100, 1, [2, 3, 4]⟩]) "A" - 3/100| ≤ 1/100) := by
  have hcalc : calculate [⟨1, "A"⟩, ⟨2, "B"⟩, ⟨3, "C"⟩, ⟨4, "D"⟩]
      [⟨1, "t", 3/100, "", "", 3/100, 1, [2, 3, 4]⟩] = [] := by
    norm_num [calculate, greedyLoop, greedyAux, balancesAfter, applyBill, initBal,
      BalMap.add, creditorsOf, debtorsOf, nameMapOf]
  have hrec : receivedBy (calculate [⟨1, "A"⟩, ⟨2, "B"⟩, ⟨3, "C"⟩, ⟨4, "D"⟩]
      [⟨1, "t", 3/100, "", "", 3/100, 1, [2, 3, 4]⟩]) "A" = 0 := by
    rw [hcalc]
    rfl
  refine ⟨?_, ?_, hcalc, ?_⟩
  · norm_num [balancesAfter, applyBill, initBal, BalMap.add, creditorsOf]
  · norm_num [nameMapOf]
  · rw [hrec, zero_sub, abs_neg, abs_of_nonneg (by norm_num : (0:ℚ) ≤ 3/100)]
    norm_num

/-- Witness for the amended C1 at a concrete input: one bill of `200`
paid by Alice and split between Alice and Bob; the loop consumes both
lists and the bounds hold. -/
theorem calculate_per_person_bounds_witness :
    (∀ x ∈ creditorsOf (balancesAfter [⟨1, "Alice"⟩, ⟨2, "Bob"⟩]
        [⟨1, "d", 200, "", "", 200, 1, [1, 2]⟩]),
      receivedBy (calculate [⟨1, "Alice"⟩, ⟨2, "Bob"⟩]
        [⟨1, "d", 200, "", "", 200, 1, [1, 2]⟩])
          (nameMapOf [⟨1, "Alice"⟩, ⟨2, "Bob"⟩] x.1) ≤ x.2 ∧
      ((greedyAux (nameMapOf [⟨1, "Alice"⟩, ⟨2, "Bob"⟩])
          (creditorsOf (balancesAfter [⟨1, "Alice"⟩, ⟨2, "Bob"⟩]
            [⟨1, "d", 200, "", "", 200, 1, [1, 2]⟩]))
          (debtorsOf (balancesAfter [⟨1, "Alice"⟩, ⟨2, "Bob"⟩]
            [⟨1, "d", 200, "", "", 200, 1, [1, 2]⟩]))).2.1 = [] →
        x.2 - receivedBy (calculate [⟨1, "Alice"⟩, ⟨2, "Bob"⟩]
          [⟨1, "d", 200, "", "", 200, 1, [1, 2]⟩])
            (nameMapOf [⟨1, "Alice"⟩, ⟨2, "Bob"⟩] x.1) < 1/100)) ∧
    (∀ x ∈ debtorsOf (balancesAfter [⟨1, "Alice"⟩, ⟨2, "Bob"⟩]
        [⟨1, "d", 200, "", "", 200, 1, [1, 2]⟩]),
      paidOutBy (calculate [⟨1, "Alice"⟩, ⟨2, "Bob"⟩]
        [⟨1, "d", 200, "", "", 200, 1, [1, 2]⟩])
          (nameMapOf [⟨1, "Alice"⟩, ⟨2, "Bob"⟩] x.1) ≤ x.2 ∧
      ((greedyAux (nameMapOf [⟨1, "Alice"⟩, ⟨2, "Bob"⟩])
          (creditorsOf (balancesAfter [⟨1, "Alice"⟩, ⟨2, "Bob"⟩]
            [⟨1, "d", 200, "", "", 200, 1, [1, 2]⟩]))
          (debtorsOf (balancesAfter [⟨1, "Alice"⟩, ⟨2, "Bob"⟩]
            [⟨1, "d", 200, "", "", 200, 1, [1, 2]⟩]))).2.2 = [] →
        x.2 - paidOutBy (calculate [⟨1, "Alice"⟩, ⟨2, "Bob"⟩]
          [⟨1, "d", 200, "", "", 200, 1, [1, 2]⟩])
            (nameMapOf [⟨1, "Alice"⟩, ⟨2, "Bob"⟩] x.1) < 1/100)) :=
  calculate_per_person_bounds [⟨1, "Alice"⟩, ⟨2, "Bob"⟩]
    [⟨1, "d", 200, "", "", 200, 1, [1, 2]⟩]
    (by norm_num +decide [balancesAfter, applyBill, initBal, BalMap.add,
      creditorsOf, debtorsOf, nameMapOf])

end BillSplitter
